import Mathlib

/-!
Verification of the Gigapan tile downloader/assembler (`main.py`).

The development shallowly embeds the core operations of the program:

* the grid calculator (`maxlevel`, `wt`, `ht` from `main`),
* the durable queue (`add_to_queue`, `remove_first_line`, the
  `process-queue` loop),
* the concurrent tile fetcher (`download_tile`, `get_tiles`),
* the tile assembler (`assemble_tiles`).

Files are modelled as lists of characters, the tile cache and the network
as functions from coordinates to optional payloads, and the numpy canvas
as a dimensioned pixel function.  Python's float `math.ceil(math.log(q, 2))`
is modelled by the exact `Int.clog 2 q` on rationals, and `math.ceil(a / b)`
by `⌈(a : ℚ) / b⌉`.  The thread pool of `get_tiles` is modelled by a
sequential fold over the grid coordinates: each coordinate is owned by
exactly one task, and every task's effect touches only its own cache slot,
so the interleaving is irrelevant to the properties proved here.
-/

namespace Gigapan

/-! ### Grid calculator (main.py lines 203-204) -/

/-- `maxlevel = math.ceil(math.log(max(width, height) / tile_size, 2))`. -/
def maxlevel (width height tile_size : ℕ) : ℤ :=
  Int.clog 2 (((max width height : ℕ) : ℚ) / (tile_size : ℚ))

/-- `math.ceil(dim / tile_size) + 1`, the per-dimension tile count
(`wt`/`ht` in `main`). -/
def tile_count (dim tile_size : ℕ) : ℤ :=
  ⌈(dim : ℚ) / (tile_size : ℚ)⌉ + 1

/-- The grid calculator: `maxlevel, wt, ht` from `main.py` lines 203-204. -/
def grid_calc (width height tile_size : ℕ) : ℤ × ℤ × ℤ :=
  (maxlevel width height tile_size,
   tile_count width tile_size,
   tile_count height tile_size)

/-! ### Text files, lines and the queue store (main.py lines 126-145, 228-247)

A file's content is a `List Char`.  `readlines` splits it exactly as
Python's `readlines` does: each line keeps its trailing newline, and a
final fragment without a newline is kept as well. -/

/-- Python `str.strip()` whitespace set (ASCII). -/
def pySpace (c : Char) : Bool :=
  c = ' ' || c = '\t' || c = '\n' || c = '\r' || c = '\x0b' || c = '\x0c'

/-- Python `str.strip()`: drop whitespace from both ends. -/
def strip (s : List Char) : List Char :=
  ((s.dropWhile pySpace).reverse.dropWhile pySpace).reverse

/-- Python `file.readline()`: the first line, including its newline. -/
def readline : List Char → List Char
  | [] => []
  | c :: cs => if c = '\n' then ['\n'] else c :: readline cs

/-- Python `file.readlines()`: split after every newline, keeping the
newline at the end of each line. -/
def readlines : List Char → List (List Char)
  | [] => []
  | c :: cs =>
    if c = '\n' then ['\n'] :: readlines cs
    else
      match readlines cs with
      | [] => [[c]]
      | l :: ls => (c :: l) :: ls

/-- `remove_first_line` (main.py lines 126-131): read all lines, write back
all lines but the first (`file.writelines(lines[1:])`). -/
def remove_first_line (s : List Char) : List Char :=
  ((readlines s).drop 1).flatten

/-- Decimal digit run to a natural number. -/
def digitsToNat (l : List Char) : ℕ :=
  l.foldl (fun a c => 10 * a + (c.toNat - '0'.toNat)) 0

/-- Python `int(str)` on an already-stripped string, modelled for an
optional sign followed by ASCII decimal digits (`none` = `ValueError`).
Pythonic digit-group underscores and non-ASCII digits are not modelled. -/
def pyInt : List Char → Option ℤ
  | [] => none
  | '+' :: rest =>
    if rest ≠ [] ∧ rest.all Char.isDigit then some (digitsToNat rest) else none
  | '-' :: rest =>
    if rest ≠ [] ∧ rest.all Char.isDigit then some (-(digitsToNat rest : ℤ)) else none
  | l => if l.all Char.isDigit then some (digitsToNat l) else none

/-- `str(photo_id)` for an integer id. -/
def intToChars (n : ℤ) : List Char :=
  (toString n).toList

/-- `add_to_queue` (main.py lines 133-145): snapshot the set of stripped
lines already stored, then append `f"{photo_id}\n"` for every candidate id
whose string form is not in that snapshot.  The snapshot is computed once,
before the loop, and never updated inside it. -/
def add_to_queue (photo_ids : List ℤ) (s : List Char) : List Char :=
  let existing := (readlines s).map strip
  photo_ids.foldl
    (fun acc pid => if intToChars pid ∈ existing then acc else acc ++ intToChars pid ++ ['\n'])
    s

/-- Exceptions escaping one iteration of the `process-queue` loop. -/
inductive ProcError where
  /-- `int(line)` raised `ValueError`. -/
  | parseError (line : List Char)
  /-- the per-job pipeline (resolver/fetcher/assembler) raised fatally. -/
  | pipelineError (id : ℤ)
deriving DecidableEq

/-- Outcome of the `process-queue` loop: the final store content, the ids
whose pipeline ran to completion in order, and the escaping exception if
any.  In the `err` case `store` is the file content at the moment the
exception propagates. -/
inductive ProcOutcome where
  | ok (store : List Char) (runs : List ℤ)
  | err (store : List Char) (runs : List ℤ) (e : ProcError)
deriving DecidableEq

/-- Apply a function to the list of completed runs of an outcome. -/
def mapRuns (f : List ℤ → List ℤ) : ProcOutcome → ProcOutcome
  | .ok store runs => .ok store (f runs)
  | .err store runs e => .err store (f runs) e

/-- One `while` pass of the `process-queue` loop (main.py lines 228-247),
fuelled: stop when the store is empty (`os.path.getsize == 0`) or its
first stripped line is blank; otherwise `int` the line (raising on
failure), run the pipeline for the id (raising on fatal failure), and only
then rewrite the store without its first line and continue.  The pipeline
is abstracted as a boolean oracle (`true` = completed without raising).
The fuel only needs to dominate the store length, since every completed
iteration removes at least one character. -/
def processGo (pipeline : ℤ → Bool) : ℕ → List Char → List ℤ → ProcOutcome
  | 0, store, runs => .ok store runs
  | fuel + 1, store, runs =>
    if store = [] then .ok store runs
    else
      let line := strip (readline store)
      if line = [] then .ok store runs
      else
        match pyInt line with
        | none => .err store runs (.parseError line)
        | some pid =>
          if pipeline pid then
            processGo pipeline fuel (remove_first_line store) (runs ++ [pid])
          else .err store runs (.pipelineError pid)

/-- `process-queue` (main.py lines 228-247) on a store content. -/
def process_queue (pipeline : ℤ → Bool) (store : List Char) : ProcOutcome :=
  processGo pipeline store.length store []

/-! ### Concurrent tile fetcher (main.py lines 55-117) -/

/-- Shared state of one fetch run: the on-disk tile cache (file per
coordinate `(j, i)`, holding the downloaded bytes), the shared
`stats["downloaded_bytes"]` counter, and the number of network calls
(`urlopen`) performed. -/
structure FetchState where
  cache : ℕ × ℕ → Option (List ℕ)
  downloadedBytes : ℕ
  netCalls : ℕ
deriving Inhabited

/-- Behaviour of the network/filesystem at one coordinate, following the
order of effects in the `with urlopen(url) as response, open(filename,
"wb") as fout:` block of main.py line 65: `urlopen` can raise before the
cache file exists, whereas `response.read()` and `fout.write(data)` can
only raise after `open(filename, "wb")` has already created (or
truncated) the cache file. -/
inductive NetResult where
  /-- `urlopen(url)` (or the `open` of the cache file itself) raised
  before any cache file was created: nothing is left on disk. -/
  | connectFail
  /-- `urlopen` succeeded and `open(filename, "wb")` created/truncated
  the cache file, but `response.read()` or `fout.write(data)` then
  raised; the bytes written so far — `[]` when the read itself failed —
  remain on disk as the coordinate's cache file. -/
  | readWriteFail (written : List ℕ)
  /-- the whole body was read and written to the cache file. -/
  | success (data : List ℕ)

/-- Whether the download at a coordinate would run to completion. -/
def NetResult.isSuccess : NetResult → Bool
  | .success _ => true
  | _ => false

/-- A per-tile failure escaping the `try` block of `download_tile`. -/
inductive TileErr where
  /-- `urlopen`/`open` raised before the cache file was created. -/
  | connect
  /-- `response.read()` or `fout.write` raised after the file existed. -/
  | readWrite
deriving DecidableEq

/-- The `try` block of `download_tile` (main.py lines 63-75), applied to
the behaviour of the network at the coordinate.  An escaping exception
carries the on-disk state at the moment it propagates — file-system
effects are not rolled back, so a read/write failure leaves the partial
cache file behind.  The shared byte counter is only bumped (under the
lock) after the `with` block completes. -/
def download_tile_attempt (response : NetResult) (j i : ℕ)
    (s : FetchState) : Except (TileErr × FetchState) FetchState :=
  match response with
  | .connectFail => .error (.connect, s)
  | .readWriteFail written =>
    .error (.readWrite,
      { s with cache := fun p => if p = (j, i) then some written else s.cache p })
  | .success data =>
    .ok { cache := fun p => if p = (j, i) then some data else s.cache p,
          downloadedBytes := s.downloadedBytes + data.length,
          netCalls := s.netCalls }

/-- `download_tile` (main.py lines 55-77): skip entirely when the cache
file exists (no network call); otherwise perform one network call and, on
any exception, log and return normally — keeping whatever the failed
attempt left on disk. -/
def download_tile (net : ℕ × ℕ → NetResult) (j i : ℕ)
    (s : FetchState) : Except TileErr FetchState :=
  if (s.cache (j, i)).isSome then .ok s
  else
    let s1 : FetchState := { s with netCalls := s.netCalls + 1 }
    match download_tile_attempt (net (j, i)) j i s1 with
    | .ok s2 => .ok s2
    | .error (_, sErr) => .ok sErr

/-- The grid coordinates submitted to the pool:
`for j in range(ht) for i in range(wt)`. -/
def gridCoords (ht wt : ℕ) : List (ℕ × ℕ) :=
  (List.range ht).flatMap fun j => (List.range wt).map fun i => (j, i)

/-- Collecting the futures: run each coordinate's task and re-raise the
first stored exception, as `future.result()` does (main.py lines 105-114). -/
def runTiles (net : ℕ × ℕ → NetResult) :
    List (ℕ × ℕ) → FetchState → Except TileErr FetchState
  | [], s => .ok s
  | c :: cs, s =>
    match download_tile net c.1 c.2 s with
    | .ok s' => runTiles net cs s'
    | .error e => .error e

/-- `get_tiles` (main.py lines 79-117): fetch every coordinate of the
`ht × wt` grid. -/
def get_tiles (net : ℕ × ℕ → NetResult) (wt ht : ℕ)
    (s : FetchState) : Except TileErr FetchState :=
  runTiles net (gridCoords ht wt) s

/-! ### Tile assembler (main.py lines 32-53) -/

/-- One RGB pixel (three uint8 channels). -/
abbrev Pix := ℕ × ℕ × ℕ

/-- The numpy canvas `np.zeros((height, width, 3))`: fixed dimensions and
a pixel function (row, column). -/
structure Canvas where
  width : ℕ
  height : ℕ
  pix : ℕ → ℕ → Pix

/-- A decoded tile image: its own height/width and pixel data. -/
structure Tile where
  h : ℕ
  w : ℕ
  pix : ℕ → ℕ → Pix

/-- The all-zero canvas `np.zeros((height, width, 3), dtype=np.uint8)`. -/
def zeroCanvas (width height : ℕ) : Canvas :=
  ⟨width, height, fun _ _ => (0, 0, 0)⟩

/-- A single bounds-checked pixel store; `none` models an out-of-range
write, which numpy slicing can never produce but which the model checks
explicitly. -/
def setPix (cv : Canvas) (r c : ℕ) (v : Pix) : Option Canvas :=
  if r < cv.height ∧ c < cv.width then
    some { cv with pix := fun r' c' => if r' = r ∧ c' = c then v else cv.pix r' c' }
  else none

/-- The index rectangle `[0, th) × [0, tw)` of a clipped copy. -/
def regionPoints (th tw : ℕ) : List (ℕ × ℕ) :=
  (List.range th).flatMap fun r => (List.range tw).map fun c => (r, c)

/-- Write `tile[:th, :tw]` pixel by pixel at offset `(x, y)`. -/
def copyPoints (tile : Tile) (x y : ℕ) :
    List (ℕ × ℕ) → Canvas → Option Canvas
  | [], cv => some cv
  | p :: ps, cv =>
    match setPix cv (y + p.1) (x + p.2) (tile.pix p.1 p.2) with
    | none => none
    | some cv' => copyPoints tile x y ps cv'

/-- The clipped copy of main.py lines 46-49:
`tile_h = min(tile.shape[0], H - y)`, `tile_w = min(tile.shape[1], W - x)`,
`final_image[y:y+tile_h, x:x+tile_w] = tile[:tile_h, :tile_w]`. -/
def assemble_copy (cv : Canvas) (tile : Tile) (x y : ℕ) : Option Canvas :=
  copyPoints tile x y
    (regionPoints (min tile.h (cv.height - y)) (min tile.w (cv.width - x))) cv

/-- The assembler's cell grid:
`for j in range(height // tile_size + 1) for i in range(width // tile_size + 1)`. -/
def cellList (width height tile_size : ℕ) : List (ℕ × ℕ) :=
  (List.range (height / tile_size + 1)).flatMap fun j =>
    (List.range (width / tile_size + 1)).map fun i => (j, i)

/-- The assembler loop body over the cells.  The cache yields `none` when
the tile file does not exist (the `os.path.exists` guard skips the cell),
`some none` when `cv2.imread` fails to decode it (logged and skipped), and
`some (some tile)` for a decoded tile, which is copied with clipping. -/
def assembleCells (cache : ℕ × ℕ → Option (Option Tile)) (tile_size : ℕ) :
    List (ℕ × ℕ) → Canvas → Option Canvas
  | [], cv => some cv
  | cell :: cells, cv =>
    match cache cell with
    | none => assembleCells cache tile_size cells cv
    | some none => assembleCells cache tile_size cells cv
    | some (some tile) =>
      match assemble_copy cv tile (cell.2 * tile_size) (cell.1 * tile_size) with
      | none => none
      | some cv' => assembleCells cache tile_size cells cv'

/-- `assemble_tiles` (main.py lines 32-53): allocate the zero canvas and
copy every available cell of the grid into it. -/
def assemble_tiles (cache : ℕ × ℕ → Option (Option Tile))
    (width height tile_size : ℕ) : Option Canvas :=
  assembleCells cache tile_size (cellList width height tile_size)
    (zeroCanvas width height)

end Gigapan

namespace Gigapan

/-! ### Grid calculator: C1 and C6 -/

/-- Helper: `Nat.clog 2 40 = 6`, by the Galois characterization. -/
theorem nat_clog_two_40 : Nat.clog 2 40 = 6 := by
  have h1 : Nat.clog 2 40 ≤ 6 := by
    rw [← Nat.le_pow_iff_clog_le (by norm_num)]
    norm_num
  have h2 : 5 < Nat.clog 2 40 := by
    rw [← Nat.pow_lt_iff_lt_clog (by norm_num)]
    norm_num
  omega

/-- Evaluating the grid calculator at the spec's example input:
the code yields `maxLevel = 6`, `wt = 41`, `ht = 33`. -/
theorem grid_calc_eval_10000_8000_256 : grid_calc 10000 8000 256 = (6, 41, 33) := by
  have hmax : (max 10000 8000 : ℕ) = 10000 := by norm_num
  have hq : ((10000 : ℕ) : ℚ) / ((256 : ℕ) : ℚ) = 625 / 16 := by norm_num
  have hceil : ⌈(625 / 16 : ℚ)⌉₊ = 40 := by
    rw [Nat.ceil_eq_iff (by norm_num)]
    norm_num
  have hml : maxlevel 10000 8000 256 = 6 := by
    rw [maxlevel, hmax, hq, Int.clog_of_one_le_right _ (by norm_num), hceil, nat_clog_two_40]
    norm_num
  have hwt : tile_count 10000 256 = 41 := by
    rw [tile_count]
    have h40 : ⌈((10000 : ℕ) : ℚ) / ((256 : ℕ) : ℚ)⌉ = 40 := by
      rw [Int.ceil_eq_iff]
      push_cast
      norm_num
    rw [h40]
    norm_num
  have hht : tile_count 8000 256 = 33 := by
    rw [tile_count]
    have h32 : ⌈((8000 : ℕ) : ℚ) / ((256 : ℕ) : ℚ)⌉ = 32 := by
      rw [Int.ceil_eq_iff]
      push_cast
      norm_num
    rw [h32]
    norm_num
  rw [grid_calc, hml, hwt, hht]

/-- C1 counterexample: at width 10000, height 8000, tileSize 256 the code
does NOT return `(6, 40, 32)`: the `+ 1` of the source makes the tile
counts 41 and 33. -/
theorem grid_calc_c1_counterexample : grid_calc 10000 8000 256 ≠ (6, 40, 32) := by
  rw [grid_calc_eval_10000_8000_256]
  decide

/-- C1 (amended): for width 10000, height 8000, tileSize 256 the grid
calculator returns `maxLevel = 6`, `tileCountsX = 41`, `tileCountsY = 33`
(the source adds 1 after the ceiling). -/
theorem grid_calc_c1_amended : grid_calc 10000 8000 256 = (6, 41, 33) :=
  grid_calc_eval_10000_8000_256

/-- `Int.clog` is unchanged by casting a rational to the reals. -/
theorem int_clog_ratCast (b : ℕ) (q : ℚ) : Int.clog b ((q : ℝ)) = Int.clog b q := by
  rcases le_or_lt 1 q with h | h
  · have h' : (1 : ℝ) ≤ (q : ℝ) := by exact_mod_cast h
    rw [Int.clog_of_one_le_right _ h', Int.clog_of_one_le_right _ h]
    congr 1
    rw [← Int.ceil_toNat, ← Int.ceil_toNat, Rat.ceil_cast]
  · have h' : (q : ℝ) ≤ 1 := by exact_mod_cast h.le
    rw [Int.clog_of_right_le_one _ h', Int.clog_of_right_le_one _ h.le]
    congr 2
    rw [← Int.floor_toNat, ← Int.floor_toNat, ← Rat.cast_inv, Rat.floor_cast]

/-- C6: for all positive inputs the grid calculator computes
`maxLevel = ⌈log₂(max(width,height)/tileSize)⌉`,
`tileCountsX = ⌈width/tileSize⌉ + 1` and `tileCountsY = ⌈height/tileSize⌉ + 1`,
and when `tileSize` divides a dimension evenly the count is still one
larger than the minimal cover `dim / tileSize`. -/
theorem grid_calc_formula (w h ts : ℕ) (hw : 0 < w) (hh : 0 < h) (hts : 0 < ts) :
    (grid_calc w h ts).1 = ⌈Real.logb 2 (((max w h : ℕ) : ℝ) / ((ts : ℕ) : ℝ))⌉ ∧
    (grid_calc w h ts).2.1 = ⌈(w : ℚ) / (ts : ℚ)⌉ + 1 ∧
    (grid_calc w h ts).2.2 = ⌈(h : ℚ) / (ts : ℚ)⌉ + 1 ∧
    (ts ∣ w → (grid_calc w h ts).2.1 = ((w / ts : ℕ) : ℤ) + 1) ∧
    (ts ∣ h → (grid_calc w h ts).2.2 = ((h / ts : ℕ) : ℤ) + 1) := by
  have hts0 : ((ts : ℕ) : ℚ) ≠ 0 := by positivity
  refine ⟨?_, rfl, rfl, ?_, ?_⟩
  · have hcast : (((max w h : ℕ) : ℝ) / ((ts : ℕ) : ℝ))
        = ((((max w h : ℕ) : ℚ) / ((ts : ℕ) : ℚ) : ℚ) : ℝ) := by
      push_cast
      ring
    have hb : ((2 : ℕ) : ℝ) = (2 : ℝ) := by norm_num
    have hr : (0 : ℝ) ≤ ((max w h : ℕ) : ℝ) / ((ts : ℕ) : ℝ) := by positivity
    rw [show (grid_calc w h ts).1 = maxlevel w h ts from rfl, maxlevel, ← hb,
      Real.ceil_logb_natCast hr, hcast, int_clog_ratCast]
  · intro hdvd
    rw [show (grid_calc w h ts).2.1 = tile_count w ts from rfl, tile_count,
      ← Nat.cast_div hdvd hts0, Int.ceil_natCast]
  · intro hdvd
    rw [show (grid_calc w h ts).2.2 = tile_count h ts from rfl, tile_count,
      ← Nat.cast_div hdvd hts0, Int.ceil_natCast]

/-- Witness for C6 at width 512, height 256, tileSize 256. -/
theorem grid_calc_formula_witness :
    (0 : ℕ) < 512 ∧ (0 : ℕ) < 256 ∧
    ((grid_calc 512 256 256).2.1 = ⌈((512 : ℕ) : ℚ) / ((256 : ℕ) : ℚ)⌉ + 1 ∧
     ((256 : ℕ) ∣ 512 → (grid_calc 512 256 256).2.1 = ((512 / 256 : ℕ) : ℤ) + 1)) := by
  refine ⟨by norm_num, by norm_num, ?_, ?_⟩
  · exact (grid_calc_formula 512 256 256 (by norm_num) (by norm_num) (by norm_num)).2.1
  · exact (grid_calc_formula 512 256 256 (by norm_num) (by norm_num) (by norm_num)).2.2.2.1

/-! ### Queue store: C9 (remove_first_line), C2 (add_to_queue) -/

/-- Concatenating the lines of `readlines` restores the file. -/
theorem readlines_flatten : ∀ s : List Char, (readlines s).flatten = s := by
  intro s
  induction s with
  | nil => rfl
  | cons c cs ih =>
    by_cases hc : c = '\n'
    · subst hc
      simp [readlines, ih]
    · rcases h : readlines cs with _ | ⟨l, ls⟩
      · rw [h] at ih
        simp only [List.flatten_nil] at ih
        simp [readlines, hc, h, ← ih]
      · rw [h] at ih
        simp only [readlines, if_neg hc, h]
        simp only [List.flatten_cons] at ih ⊢
        rw [List.cons_append, ih]

/-- Splitting into lines returns a nonempty first line on nonempty input. -/
theorem readlines_cons (c : Char) (cs : List Char) :
    ∃ l ls, readlines (c :: cs) = l :: ls ∧ l ≠ [] := by
  by_cases hc : c = '\n'
  · subst hc
    exact ⟨['\n'], readlines cs, by simp [readlines], by simp⟩
  · rcases h : readlines cs with _ | ⟨l, ls⟩
    · exact ⟨[c], [], by simp [readlines, hc, h], by simp⟩
    · exact ⟨c :: l, ls, by simp [readlines, hc, h], by simp⟩

/-- Removing the first line of a nonempty file strictly shrinks it. -/
theorem remove_first_line_length_lt (s : List Char) (hs : s ≠ []) :
    (remove_first_line s).length < s.length := by
  rcases s with _ | ⟨c, cs⟩
  · cases hs rfl
  · obtain ⟨l, ls, hr, hl⟩ := readlines_cons c cs
    have hflat : (readlines (c :: cs)).flatten = c :: cs := readlines_flatten _
    rw [hr] at hflat
    have : l.length + ls.flatten.length = (c :: cs).length := by
      rw [← hflat]
      simp
    have hlpos : 0 < l.length := List.length_pos.mpr hl
    rw [remove_first_line, hr]
    simp only [List.drop_one, List.tail_cons]
    omega

/-- After `remove_first_line`, the store's lines are exactly the original
lines after the first. -/
theorem readlines_remove_first_line :
    ∀ s : List Char, readlines (remove_first_line s) = (readlines s).drop 1 := by
  intro s
  induction s with
  | nil => rfl
  | cons c cs ih =>
    rw [remove_first_line]
    by_cases hc : c = '\n'
    · subst hc
      have h1 : readlines ('\n' :: cs) = ['\n'] :: readlines cs := by simp [readlines]
      rw [h1]
      simp only [List.drop_one, List.tail_cons]
      rw [readlines_flatten]
    · rcases h : readlines cs with _ | ⟨l, ls⟩
      · have h1 : readlines (c :: cs) = [[c]] := by simp [readlines, hc, h]
        rw [h1]
        simp [readlines]
      · have h1 : readlines (c :: cs) = (c :: l) :: ls := by simp [readlines, hc, h]
        rw [h1]
        simp only [List.drop_one, List.tail_cons]
        rw [remove_first_line, h, List.drop_one, List.tail_cons] at ih
        exact ih

/-- C9: `remove_first_line` rewrites the store to exactly the original
lines after the first, unchanged and in order; on an empty file it leaves
the file empty (and, being a plain read/rewrite, raises no error). -/
theorem remove_first_line_c9 :
    (∀ s : List Char, readlines (remove_first_line s) = (readlines s).drop 1) ∧
    remove_first_line [] = [] :=
  ⟨readlines_remove_first_line, rfl⟩

/-- C2 counterexample: `Add([42, 42])` then `Add([42])` on an empty store
leaves TWO stored entries for 42, not one: the already-present check reads
a snapshot taken before the loop, so duplicates within one call are not
filtered. -/
theorem add_to_queue_c2_counterexample :
    ¬ (((readlines (add_to_queue [42] (add_to_queue [42, 42] ([] : List Char)))).map
          strip).count (intToChars 42) = 1) := by
  decide

/-- C2 (amended): `Add([42, 42])` then `Add([42])` stores the entry 42
twice; the already-present check deduplicates only against ids stored
before the call began (its snapshot is not updated inside the loop), so a
call whose ids are all already stored appends nothing. -/
theorem add_to_queue_c2_amended :
    (((readlines (add_to_queue [42] (add_to_queue [42, 42] ([] : List Char)))).map
        strip).count (intToChars 42) = 2) ∧
    (∀ (ids : List ℤ) (s : List Char),
      (∀ pid ∈ ids, intToChars pid ∈ (readlines s).map strip) →
      add_to_queue ids s = s) := by
  constructor
  · decide
  · intro ids s h
    simp only [add_to_queue]
    induction ids with
    | nil => rfl
    | cons pid ids ih =>
      rw [List.foldl_cons, if_pos (h pid (List.mem_cons_self _ _))]
      exact ih fun q hq => h q (List.mem_cons_of_mem _ hq)

/-- Witness for the amended C2 at a store already holding `7`. -/
theorem add_to_queue_c2_amended_witness :
    (∀ pid ∈ ([7] : List ℤ), intToChars pid ∈ (readlines ('7' :: ['\n'])).map strip) ∧
    add_to_queue [7] ('7' :: ['\n']) = '7' :: ['\n'] := by
  refine ⟨by decide, ?_⟩
  exact add_to_queue_c2_amended.2 [7] ('7' :: ['\n']) (by decide)

/-! ### Queue processing: C8 and C10 -/

/-- One-step unfolding of the fuelled processing loop. -/
theorem processGo_succ_eq (pipeline : ℤ → Bool) (fuel : ℕ) (store : List Char)
    (runs : List ℤ) :
    processGo pipeline (fuel + 1) store runs =
      if store = [] then .ok store runs
      else
        if strip (readline store) = [] then .ok store runs
        else
          match pyInt (strip (readline store)) with
          | none => .err store runs (.parseError (strip (readline store)))
          | some pid =>
            if pipeline pid then
              processGo pipeline fuel (remove_first_line store) (runs ++ [pid])
            else .err store runs (.pipelineError pid) :=
  rfl

/-- With fuel at least the store length, one more unit of fuel is inert. -/
theorem processGo_succ (pipeline : ℤ → Bool) :
    ∀ (fuel : ℕ) (store : List Char) (runs : List ℤ), store.length ≤ fuel →
      processGo pipeline (fuel + 1) store runs = processGo pipeline fuel store runs := by
  intro fuel
  induction fuel with
  | zero =>
    intro store runs h
    have hs : store = [] := List.length_eq_zero.mp (le_antisymm h (zero_le _))
    subst hs
    rw [processGo_succ_eq]
    simp [processGo]
  | succ fuel ih =>
    intro store runs h
    rw [processGo_succ_eq pipeline (fuel + 1), processGo_succ_eq pipeline fuel]
    by_cases hs : store = []
    · simp [hs]
    · simp only [if_neg hs]
      by_cases hl : strip (readline store) = []
      · simp [hl]
      · simp only [if_neg hl]
        cases hp : pyInt (strip (readline store)) with
        | none => rfl
        | some pid =>
          simp only []
          by_cases hpl : pipeline pid
          · simp only [if_pos hpl]
            refine ih _ _ ?_
            have := remove_first_line_length_lt store hs
            omega
          · simp [hpl]

/-- The loop result depends on the fuel only up to the store length. -/
theorem processGo_of_le (pipeline : ℤ → Bool) :
    ∀ (fuel : ℕ) (store : List Char) (runs : List ℤ), store.length ≤ fuel →
      processGo pipeline fuel store runs = processGo pipeline store.length store runs := by
  intro fuel
  induction fuel with
  | zero =>
    intro store runs h
    rw [Nat.le_zero] at h
    rw [h]
  | succ fuel ih =>
    intro store runs h
    rcases eq_or_lt_of_le h with heq | hlt
    · rw [heq]
    · have h' : store.length ≤ fuel := Nat.lt_succ_iff.mp hlt
      rw [processGo_succ pipeline fuel store runs h', ih store runs h']

/-- Completed runs accumulate on the right of the initial accumulator. -/
theorem processGo_append (pipeline : ℤ → Bool) :
    ∀ (fuel : ℕ) (store : List Char) (runs : List ℤ),
      processGo pipeline fuel store runs
        = mapRuns (fun q => runs ++ q) (processGo pipeline fuel store []) := by
  intro fuel
  induction fuel with
  | zero => intro store runs; simp [processGo, mapRuns]
  | succ fuel ih =>
    intro store runs
    rw [processGo_succ_eq, processGo_succ_eq]
    by_cases hs : store = []
    · simp [hs, mapRuns]
    · simp only [if_neg hs]
      by_cases hl : strip (readline store) = []
      · simp [hl, mapRuns]
      · simp only [if_neg hl]
        cases hp : pyInt (strip (readline store)) with
        | none => simp [mapRuns]
        | some pid =>
          simp only []
          by_cases hpl : pipeline pid
          · simp only [if_pos hpl]
            rw [ih (remove_first_line store) (runs ++ [pid]),
              ih (remove_first_line store) ([] ++ [pid])]
            cases processGo pipeline fuel (remove_first_line store) [] with
            | ok st rs => simp [mapRuns]
            | err st rs e => simp [mapRuns]
          · simp [hpl, mapRuns]

/-- A `pipelineError` outcome always exposes the failing id as the first
line of the store it reports. -/
theorem processGo_pipeline_err (pipeline : ℤ → Bool) :
    ∀ (fuel : ℕ) (store : List Char) (runs : List ℤ) (s : List Char) (rs : List ℤ) (pid : ℤ),
      processGo pipeline fuel store runs = .err s rs (.pipelineError pid) →
      pipeline pid = false ∧ pyInt (strip (readline s)) = some pid := by
  intro fuel
  induction fuel with
  | zero =>
    intro store runs s rs pid h
    simp [processGo] at h
  | succ fuel ih =>
    intro store runs s rs pid h
    rw [processGo_succ_eq] at h
    by_cases hs : store = []
    · rw [if_pos hs] at h
      cases h
    · rw [if_neg hs] at h
      by_cases hl : strip (readline store) = []
      · rw [if_pos hl] at h
        cases h
      · rw [if_neg hl] at h
        cases hp : pyInt (strip (readline store)) with
        | none =>
          rw [hp] at h
          simp only [ProcOutcome.err.injEq] at h
          cases h.2.2
        | some pid' =>
          rw [hp] at h
          simp only [] at h
          by_cases hpl : pipeline pid'
          · rw [if_pos hpl] at h
            exact ih _ _ _ _ _ h
          · rw [if_neg hpl] at h
            simp only [ProcOutcome.err.injEq, ProcError.pipelineError.injEq] at h
            obtain ⟨hse, -, hpe⟩ := h
            subst hse
            subst hpe
            exact ⟨by simpa using hpl, hp⟩

/-- C10: if the first line of the store is non-blank but not a decimal
integer, processing raises while parsing it — before any pipeline step and
before any entry is removed — leaving the store unchanged. -/
theorem process_queue_parse_error (pipeline : ℤ → Bool) (store : List Char)
    (h1 : strip (readline store) ≠ [])
    (h2 : pyInt (strip (readline store)) = none) :
    process_queue pipeline store
      = .err store [] (.parseError (strip (readline store))) := by
  have hs : store ≠ [] := by
    intro h
    subst h
    exact h1 rfl
  rcases store with _ | ⟨c, cs⟩
  · cases hs rfl
  · rw [process_queue, List.length_cons, processGo_succ_eq, if_neg hs, if_neg h1, h2]

/-- Witness for C10: a store whose first line is `x`. -/
theorem process_queue_parse_error_witness :
    strip (readline ('x' :: ['\n'])) ≠ [] ∧
    pyInt (strip (readline ('x' :: ['\n']))) = none ∧
    process_queue (fun _ => true) ('x' :: ['\n'])
      = .err ('x' :: ['\n']) [] (.parseError (strip (readline ('x' :: ['\n'])))) := by
  refine ⟨by decide, by decide, ?_⟩
  exact process_queue_parse_error (fun _ => true) ('x' :: ['\n']) (by decide) (by decide)

/-- C8: processing runs queued jobs strictly in FIFO order; the first
entry is removed only after its pipeline completes without raising (on
success the run continues on the store without its first line, with the
id recorded first); a pipeline failure aborts with the failing entry still
the first line of the reported store (at-least-once); and on the store
`1\n2\n3\n` with an always-succeeding pipeline the loop empties the store,
running 1 then 2 then 3. -/
theorem process_queue_c8 :
    (process_queue (fun _ => true) ("1\n2\n3\n".toList) = .ok [] [1, 2, 3]) ∧
    (∀ (pipeline : ℤ → Bool) (store : List Char) (pid : ℤ),
      pyInt (strip (readline store)) = some pid → pipeline pid = true →
      process_queue pipeline store
        = mapRuns (fun q => pid :: q)
            (process_queue pipeline (remove_first_line store))) ∧
    (∀ (pipeline : ℤ → Bool) (store s : List Char) (rs : List ℤ) (pid : ℤ),
      process_queue pipeline store = .err s rs (.pipelineError pid) →
      pipeline pid = false ∧ pyInt (strip (readline s)) = some pid) := by
  refine ⟨by decide, ?_, ?_⟩
  · intro pipeline store pid hp hpl
    have hs : store ≠ [] := by
      intro h
      subst h
      simp [readline, strip, pyInt] at hp
    have hl : strip (readline store) ≠ [] := by
      intro h
      rw [h] at hp
      simp [pyInt] at hp
    rcases store with _ | ⟨c, cs⟩
    · cases hs rfl
    · rw [process_queue, List.length_cons, processGo_succ_eq, if_neg hs, if_neg hl, hp]
      simp only [if_pos hpl]
      have hle : (remove_first_line (c :: cs)).length ≤ cs.length := by
        have := remove_first_line_length_lt (c :: cs) hs
        simp only [List.length_cons] at this
        omega
      rw [processGo_append pipeline cs.length (remove_first_line (c :: cs)) ([] ++ [pid]),
        processGo_of_le pipeline cs.length (remove_first_line (c :: cs)) [] hle,
        process_queue]
      cases processGo pipeline (remove_first_line (c :: cs)).length
          (remove_first_line (c :: cs)) [] with
      | ok st rsx => simp [mapRuns]
      | err st rsx e => simp [mapRuns]
  · intro pipeline store s rs pid h
    exact processGo_pipeline_err pipeline store.length store [] s rs pid h

/-- Witness for C8's quantified parts: one successful step on the store
`7\n`, and the shape of a pipeline failure on the same store. -/
theorem process_queue_c8_witness :
    pyInt (strip (readline ('7' :: ['\n']))) = some 7 ∧
    process_queue (fun _ => true) ('7' :: ['\n'])
      = mapRuns (fun q => 7 :: q)
          (process_queue (fun _ => true) (remove_first_line ('7' :: ['\n']))) := by
  refine ⟨by decide, ?_⟩
  exact process_queue_c8.2.1 (fun _ => true) ('7' :: ['\n']) 7 (by decide) rfl

/-! ### Tile fetcher: C4 and C5 -/

/-- Grid membership: `(j, i)` is submitted iff `j < ht` and `i < wt`. -/
theorem gridCoords_mem (ht wt : ℕ) (p : ℕ × ℕ) :
    p ∈ gridCoords ht wt ↔ p.1 < ht ∧ p.2 < wt := by
  rcases p with ⟨j, i⟩
  simp only [gridCoords, List.mem_flatMap, List.mem_map, List.mem_range, Prod.mk.injEq]
  constructor
  · rintro ⟨j', hj', i', hi', hj, hi⟩
    subst hj
    subst hi
    exact ⟨hj', hi'⟩
  · rintro ⟨hj, hi⟩
    exact ⟨j, hj, i, hi, rfl, rfl⟩

/-- The per-tile task never surfaces an exception. -/
theorem download_tile_ok (net : ℕ × ℕ → NetResult) (j i : ℕ) (s : FetchState) :
    ∃ s', download_tile net j i s = .ok s' := by
  by_cases hc : (s.cache (j, i)).isSome
  · exact ⟨s, by rw [download_tile, if_pos hc]⟩
  · cases hnet : net (j, i) with
    | connectFail =>
      refine ⟨{ s with netCalls := s.netCalls + 1 }, ?_⟩
      rw [download_tile, if_neg hc, hnet]
      rfl
    | readWriteFail written =>
      refine ⟨{ s with
          cache := fun p => if p = (j, i) then some written else s.cache p,
          netCalls := s.netCalls + 1 }, ?_⟩
      rw [download_tile, if_neg hc, hnet]
      rfl
    | success data =>
      refine ⟨{ cache := fun p => if p = (j, i) then some data else s.cache p,
                downloadedBytes := s.downloadedBytes + data.length,
                netCalls := s.netCalls + 1 }, ?_⟩
      rw [download_tile, if_neg hc, hnet]
      rfl

/-- The per-tile task never removes a cache entry (a failed attempt may
add one — the partial file — but never deletes). -/
theorem download_tile_mono (net : ℕ × ℕ → NetResult) (j i : ℕ)
    (s s' : FetchState) (h : download_tile net j i s = .ok s') (p : ℕ × ℕ)
    (hp : (s.cache p).isSome = true) : (s'.cache p).isSome = true := by
  by_cases hc : (s.cache (j, i)).isSome
  · rw [download_tile, if_pos hc] at h
    obtain rfl := Except.ok.inj h
    exact hp
  · cases hnet : net (j, i) with
    | connectFail =>
      rw [download_tile, if_neg hc, hnet] at h
      simp only [download_tile_attempt] at h
      obtain rfl := Except.ok.inj h
      exact hp
    | readWriteFail written =>
      rw [download_tile, if_neg hc, hnet] at h
      simp only [download_tile_attempt] at h
      obtain rfl := Except.ok.inj h
      simp only []
      by_cases hpe : p = (j, i)
      · simp [hpe]
      · simpa [hpe] using hp
    | success data =>
      rw [download_tile, if_neg hc, hnet] at h
      simp only [download_tile_attempt] at h
      obtain rfl := Except.ok.inj h
      simp only []
      by_cases hpe : p = (j, i)
      · simp [hpe]
      · simpa [hpe] using hp

/-- After its task, a coordinate is cached whenever it was cached before
or its download ran to completion. -/
theorem download_tile_covers (net : ℕ × ℕ → NetResult) (j i : ℕ)
    (s s' : FetchState) (h : download_tile net j i s = .ok s')
    (hp : (s.cache (j, i)).isSome = true ∨ (net (j, i)).isSuccess = true) :
    (s'.cache (j, i)).isSome = true := by
  by_cases hc : (s.cache (j, i)).isSome
  · rw [download_tile, if_pos hc] at h
    obtain rfl := Except.ok.inj h
    exact hc
  · rcases hp with hp | hp
    · exact absurd hp hc
    · cases hnet : net (j, i) with
      | connectFail =>
        rw [hnet] at hp
        simp [NetResult.isSuccess] at hp
      | readWriteFail written =>
        rw [hnet] at hp
        simp [NetResult.isSuccess] at hp
      | success data =>
        rw [download_tile, if_neg hc, hnet] at h
        simp only [download_tile_attempt] at h
        obtain rfl := Except.ok.inj h
        simp

/-- Collecting the futures never surfaces an exception. -/
theorem runTiles_ok (net : ℕ × ℕ → NetResult) :
    ∀ (cs : List (ℕ × ℕ)) (s : FetchState), ∃ s', runTiles net cs s = .ok s' := by
  intro cs
  induction cs with
  | nil => intro s; exact ⟨s, rfl⟩
  | cons c cs ih =>
    intro s
    obtain ⟨s1, h1⟩ := download_tile_ok net c.1 c.2 s
    obtain ⟨s', h'⟩ := ih s1
    refine ⟨s', ?_⟩
    rw [runTiles, h1]
    exact h'

/-- The batch never removes a cache entry. -/
theorem runTiles_mono (net : ℕ × ℕ → NetResult) :
    ∀ (cs : List (ℕ × ℕ)) (s s' : FetchState), runTiles net cs s = .ok s' →
      ∀ p, (s.cache p).isSome = true → (s'.cache p).isSome = true := by
  intro cs
  induction cs with
  | nil =>
    intro s s' h p hp
    cases h
    exact hp
  | cons c cs ih =>
    intro s s' h p hp
    rw [runTiles] at h
    cases h1 : download_tile net c.1 c.2 s with
    | error e => rw [h1] at h; cases h
    | ok s1 =>
      rw [h1] at h
      exact ih s1 s' h p (download_tile_mono net c.1 c.2 s s1 h1 p hp)

/-- Every submitted coordinate that is already cached or whose download
runs to completion is cached when the batch completes, regardless of
failures at other coordinates. -/
theorem runTiles_covers (net : ℕ × ℕ → NetResult) :
    ∀ (cs : List (ℕ × ℕ)) (s s' : FetchState), runTiles net cs s = .ok s' →
      ∀ p ∈ cs, (s.cache p).isSome = true ∨ (net p).isSuccess = true →
        (s'.cache p).isSome = true := by
  intro cs
  induction cs with
  | nil =>
    intro s s' h p hp
    cases hp
  | cons c cs ih =>
    intro s s' h p hp hcov
    rw [runTiles] at h
    cases h1 : download_tile net c.1 c.2 s with
    | error e => rw [h1] at h; cases h
    | ok s1 =>
      rw [h1] at h
      rcases List.mem_cons.mp hp with rfl | hp'
      · exact runTiles_mono net cs s1 s' h p
          (download_tile_covers net p.1 p.2 s s1 h1 hcov)
      · refine ih s1 s' h p hp' ?_
        rcases hcov with hcov | hcov
        · exact Or.inl (download_tile_mono net c.1 c.2 s s1 h1 p hcov)
        · exact Or.inr hcov

/-- Every coordinate already cached leaves the state untouched. -/
theorem runTiles_cached (net : ℕ × ℕ → NetResult) :
    ∀ (cs : List (ℕ × ℕ)) (s : FetchState),
      (∀ p ∈ cs, (s.cache p).isSome = true) → runTiles net cs s = .ok s := by
  intro cs
  induction cs with
  | nil => intro s _; rfl
  | cons c cs ih =>
    intro s h
    have h1 : download_tile net c.1 c.2 s = .ok s := by
      rw [download_tile, if_pos (h c (List.mem_cons_self _ _))]
    rw [runTiles, h1]
    exact ih s fun p hp => h p (List.mem_cons_of_mem _ hp)

/-- C4: a tile whose cache file exists is skipped — no network call, no
cache modification, the state is returned unchanged — and a whole fetch
over a fully populated cache returns the state unchanged, in particular
with zero additional network calls. -/
theorem download_tile_idempotent :
    (∀ (net : ℕ × ℕ → NetResult) (j i : ℕ) (s : FetchState),
      (s.cache (j, i)).isSome = true → download_tile net j i s = .ok s) ∧
    (∀ (net : ℕ × ℕ → NetResult) (wt ht : ℕ) (s : FetchState),
      (∀ j i, j < ht → i < wt → (s.cache (j, i)).isSome = true) →
      get_tiles net wt ht s = .ok s) := by
  constructor
  · intro net j i s h
    rw [download_tile, if_pos h]
  · intro net wt ht s h
    rw [get_tiles]
    refine runTiles_cached net (gridCoords ht wt) s fun p hp => ?_
    obtain ⟨hj, hi⟩ := (gridCoords_mem ht wt p).mp hp
    exact h p.1 p.2 hj hi

/-- Witness for C4: a fully cached 2×2 grid is re-fetched with no state
change. -/
theorem download_tile_idempotent_witness :
    ((FetchState.mk (fun _ => some [0]) 0 0).cache (0, 0)).isSome = true ∧
    get_tiles (fun _ => NetResult.connectFail) 2 2 (FetchState.mk (fun _ => some [0]) 0 0)
      = .ok (FetchState.mk (fun _ => some [0]) 0 0) := by
  refine ⟨rfl, ?_⟩
  exact download_tile_idempotent.2 (fun _ => NetResult.connectFail) 2 2
    (FetchState.mk (fun _ => some [0]) 0 0) fun j i _ _ => rfl

/-- C5 counterexample: the claim "any failure leaves the coordinate
uncached" is false.  For an uncached coordinate whose `response.read()`
fails after `open(filename, "wb")` already created the cache file
(`NetResult.readWriteFail []`), the task returns normally but the
coordinate IS cached afterwards — an empty file that later runs treat as
an existing tile. -/
theorem download_tile_c5_counterexample :
    (download_tile (fun _ => NetResult.readWriteFail []) 0 0
        (FetchState.mk (fun _ => none) 0 0)).map
      (fun s' => (s'.cache (0, 0)).isSome) = .ok true := by
  rfl

/-- C5 (amended): any per-tile network/IO failure is caught inside the
task, which logs and returns normally; it never aborts sibling tasks and
the fetch never surfaces it as a batch failure.  A failure of `urlopen`
itself leaves the coordinate uncached, but a failure of `response.read()`
or of the file write happens after `open(filename, "wb")` created the
cache file, so it leaves an empty or partial cached file at the
coordinate. -/
theorem download_tile_absorbs_errors :
    (∀ (net : ℕ × ℕ → NetResult) (j i : ℕ) (s : FetchState),
      s.cache (j, i) = none → net (j, i) = .connectFail →
      download_tile net j i s = .ok { s with netCalls := s.netCalls + 1 }) ∧
    (∀ (net : ℕ × ℕ → NetResult) (j i : ℕ) (s : FetchState) (written : List ℕ),
      s.cache (j, i) = none → net (j, i) = .readWriteFail written →
      download_tile net j i s
        = .ok { s with
            cache := fun p => if p = (j, i) then some written else s.cache p,
            netCalls := s.netCalls + 1 }) ∧
    (∀ (net : ℕ × ℕ → NetResult) (wt ht : ℕ) (s : FetchState),
      ∃ s', get_tiles net wt ht s = .ok s') ∧
    (∀ (net : ℕ × ℕ → NetResult) (wt ht : ℕ) (s s' : FetchState),
      get_tiles net wt ht s = .ok s' →
      ∀ j i, j < ht → i < wt →
        (s.cache (j, i)).isSome = true ∨ (net (j, i)).isSuccess = true →
        (s'.cache (j, i)).isSome = true) := by
  refine ⟨?_, ?_, ?_, ?_⟩
  · intro net j i s hc hnet
    rw [download_tile, if_neg (by simp [hc]), hnet]
    rfl
  · intro net j i s written hc hnet
    rw [download_tile, if_neg (by simp [hc]), hnet]
    rfl
  · intro net wt ht s
    exact runTiles_ok net (gridCoords ht wt) s
  · intro net wt ht s s' h j i hj hi hcov
    rw [get_tiles] at h
    exact runTiles_covers net (gridCoords ht wt) s s' h (j, i)
      ((gridCoords_mem ht wt (j, i)).mpr ⟨hj, hi⟩) hcov

/-- Witness for the amended C5: a connect failure leaves the coordinate
uncached; a read failure leaves the written bytes cached; a failing 1×1
batch still returns normally. -/
theorem download_tile_absorbs_errors_witness :
    ((FetchState.mk (fun _ => none) 0 0).cache (0, 0) = none) ∧
    download_tile (fun _ => NetResult.connectFail) 0 0 (FetchState.mk (fun _ => none) 0 0)
      = .ok { FetchState.mk (fun _ => none) 0 0 with netCalls := 0 + 1 } ∧
    download_tile (fun _ => NetResult.readWriteFail [5]) 0 0
        (FetchState.mk (fun _ => none) 0 0)
      = .ok { FetchState.mk (fun _ => none) 0 0 with
          cache := fun p => if p = (0, 0) then some [5]
            else (FetchState.mk (fun _ => none) 0 0).cache p,
          netCalls := (FetchState.mk (fun _ => none) 0 0).netCalls + 1 } ∧
    (∃ s', get_tiles (fun _ => NetResult.connectFail) 1 1
        (FetchState.mk (fun _ => none) 0 0) = .ok s') := by
  refine ⟨rfl, ?_, ?_, ?_⟩
  · exact download_tile_absorbs_errors.1 (fun _ => NetResult.connectFail) 0 0
      (FetchState.mk (fun _ => none) 0 0) rfl rfl
  · exact download_tile_absorbs_errors.2.1 (fun _ => NetResult.readWriteFail [5]) 0 0
      (FetchState.mk (fun _ => none) 0 0) [5] rfl rfl
  · exact download_tile_absorbs_errors.2.2.1 (fun _ => NetResult.connectFail) 1 1
      (FetchState.mk (fun _ => none) 0 0)


/-! ### Tile assembler: C3 and C7 -/

/-- Membership in the clipped copy rectangle. -/
theorem regionPoints_mem (th tw : ℕ) (p : ℕ × ℕ) :
    p ∈ regionPoints th tw ↔ p.1 < th ∧ p.2 < tw := by
  rcases p with ⟨a, b⟩
  simp only [regionPoints, List.mem_flatMap, List.mem_map, List.mem_range, Prod.mk.injEq]
  constructor
  · rintro ⟨r, hr, c, hc, h1, h2⟩
    subst h1
    subst h2
    exact ⟨hr, hc⟩
  · rintro ⟨h1, h2⟩
    exact ⟨a, h1, b, h2, rfl, rfl⟩

/-- Pixelwise characterization of the pointwise copy: it succeeds whenever
every target index is in canvas bounds, it preserves the dimensions, and
it writes `tile.pix (r - y) (c - x)` exactly on the target points. -/
theorem copyPoints_spec (tile : Tile) (x y : ℕ) :
    ∀ (ps : List (ℕ × ℕ)) (cv : Canvas),
      (∀ p ∈ ps, y + p.1 < cv.height ∧ x + p.2 < cv.width) →
      ∃ cv', copyPoints tile x y ps cv = some cv' ∧
        cv'.width = cv.width ∧ cv'.height = cv.height ∧
        ∀ r c, cv'.pix r c =
          if y ≤ r ∧ x ≤ c ∧ (r - y, c - x) ∈ ps then tile.pix (r - y) (c - x)
          else cv.pix r c := by
  intro ps
  induction ps with
  | nil =>
    intro cv h
    refine ⟨cv, rfl, rfl, rfl, ?_⟩
    intro r c
    simp
  | cons p ps ih =>
    intro cv h
    obtain ⟨hbh, hbw⟩ := h p (List.mem_cons_self _ _)
    set cv1 : Canvas :=
      { cv with pix := fun r' c' =>
          if r' = y + p.1 ∧ c' = x + p.2 then tile.pix p.1 p.2 else cv.pix r' c' }
      with hcv1
    have hset : setPix cv (y + p.1) (x + p.2) (tile.pix p.1 p.2) = some cv1 := by
      rw [setPix, if_pos ⟨hbh, hbw⟩]
    have hb1 : ∀ q ∈ ps, y + q.1 < cv1.height ∧ x + q.2 < cv1.width := by
      rw [hcv1]
      intro q hq
      exact h q (List.mem_cons_of_mem _ hq)
    obtain ⟨cv', heq, hw, hh, hpix⟩ := ih cv1 hb1
    refine ⟨cv', ?_, by rw [hw, hcv1], by rw [hh, hcv1], ?_⟩
    · rw [copyPoints, hset]
      exact heq
    · intro r c
      rw [hpix r c]
      by_cases h1 : y ≤ r ∧ x ≤ c ∧ (r - y, c - x) ∈ ps
      · rw [if_pos h1, if_pos ⟨h1.1, h1.2.1, List.mem_cons_of_mem _ h1.2.2⟩]
      · rw [if_neg h1]
        by_cases h2 : y ≤ r ∧ x ≤ c ∧ (r - y, c - x) ∈ p :: ps
        · obtain ⟨hy, hx, hmem⟩ := h2
          rcases List.mem_cons.mp hmem with heq' | hmem'
          · have hr1 : r - y = p.1 := congrArg Prod.fst heq'
            have hc1 : c - x = p.2 := congrArg Prod.snd heq'
            have hr2 : r = y + p.1 := by omega
            have hc2 : c = x + p.2 := by omega
            rw [if_pos ⟨hy, hx, hmem⟩, hcv1]
            show (if r = y + p.1 ∧ c = x + p.2 then tile.pix p.1 p.2 else cv.pix r c)
              = tile.pix (r - y) (c - x)
            rw [if_pos ⟨hr2, hc2⟩, hr1, hc1]
          · exact absurd ⟨hy, hx, hmem'⟩ h1
        · rw [if_neg h2, hcv1]
          show (if r = y + p.1 ∧ c = x + p.2 then tile.pix p.1 p.2 else cv.pix r c)
            = cv.pix r c
          have hno : ¬(r = y + p.1 ∧ c = x + p.2) := by
            rintro ⟨hr2, hc2⟩
            refine h2 ⟨by omega, by omega, ?_⟩
            have hp' : (r - y, c - x) = p := by
              have e1 : r - y = p.1 := by omega
              have e2 : c - x = p.2 := by omega
              rw [e1, e2]
            rw [hp']
            exact List.mem_cons_self _ _
          rw [if_neg hno]

/-- Pixelwise characterization of the clipped copy (main.py lines 46-49):
always succeeds, preserves the dimensions, and writes the tile exactly on
the clipped rectangle. -/
theorem assemble_copy_spec (cv : Canvas) (tile : Tile) (x y : ℕ) :
    ∃ cv', assemble_copy cv tile x y = some cv' ∧
      cv'.width = cv.width ∧ cv'.height = cv.height ∧
      ∀ r c, cv'.pix r c =
        if y ≤ r ∧ x ≤ c ∧ r - y < min tile.h (cv.height - y)
            ∧ c - x < min tile.w (cv.width - x)
        then tile.pix (r - y) (c - x) else cv.pix r c := by
  have hb : ∀ p ∈ regionPoints (min tile.h (cv.height - y)) (min tile.w (cv.width - x)),
      y + p.1 < cv.height ∧ x + p.2 < cv.width := by
    intro p hp
    obtain ⟨h1, h2⟩ := (regionPoints_mem _ _ p).mp hp
    have e1 : p.1 < cv.height - y := lt_of_lt_of_le h1 (min_le_right _ _)
    have e2 : p.2 < cv.width - x := lt_of_lt_of_le h2 (min_le_right _ _)
    exact ⟨by omega, by omega⟩
  obtain ⟨cv', h1, h2, h3, h4⟩ := copyPoints_spec tile x y _ cv hb
  refine ⟨cv', h1, h2, h3, ?_⟩
  intro r c
  rw [h4 r c, if_congr (by rw [regionPoints_mem]) rfl rfl]

/-- C3: with the offset inside the canvas, the clipped copy limits itself
to `min(tile height, canvas height − y)` rows and
`min(tile width, canvas width − x)` columns: every modified pixel lies
within canvas bounds, the copy itself never fails, the canvas dimensions
are unchanged, and the clipped region receives the tile's pixels. -/
theorem assemble_copy_clips (cv : Canvas) (tile : Tile) (x y : ℕ)
    (hx : x ≤ cv.width) (hy : y ≤ cv.height) :
    ∃ cv', assemble_copy cv tile x y = some cv' ∧
      cv'.width = cv.width ∧ cv'.height = cv.height ∧
      (∀ r c, cv'.pix r c ≠ cv.pix r c →
        y ≤ r ∧ r < cv.height ∧ x ≤ c ∧ c < cv.width) ∧
      (∀ r c, r < min tile.h (cv.height - y) → c < min tile.w (cv.width - x) →
        cv'.pix (y + r) (x + c) = tile.pix r c) := by
  obtain ⟨cv', h1, h2, h3, h4⟩ := assemble_copy_spec cv tile x y
  refine ⟨cv', h1, h2, h3, ?_, ?_⟩
  · intro r c hne
    rw [h4 r c] at hne
    by_cases hcond : y ≤ r ∧ x ≤ c ∧ r - y < min tile.h (cv.height - y)
        ∧ c - x < min tile.w (cv.width - x)
    · obtain ⟨hy', hx', hr', hc'⟩ := hcond
      have hrh : r - y < cv.height - y := lt_of_lt_of_le hr' (min_le_right _ _)
      have hcw : c - x < cv.width - x := lt_of_lt_of_le hc' (min_le_right _ _)
      exact ⟨hy', by omega, hx', by omega⟩
    · rw [if_neg hcond] at hne
      exact absurd rfl hne
  · intro r c hr hc
    have e1 : y + r - y = r := by omega
    have e2 : x + c - x = c := by omega
    rw [h4 (y + r) (x + c),
      if_pos ⟨Nat.le_add_right _ _, Nat.le_add_right _ _,
        by rw [e1]; exact hr, by rw [e2]; exact hc⟩, e1, e2]

/-- Witness for C3: a 3×3 tile copied at offset (1,1) into a 2×2 canvas. -/
theorem assemble_copy_clips_witness :
    (1 : ℕ) ≤ (zeroCanvas 2 2).width ∧ (1 : ℕ) ≤ (zeroCanvas 2 2).height ∧
    (∃ cv', assemble_copy (zeroCanvas 2 2) (Tile.mk 3 3 fun _ _ => (9, 9, 9)) 1 1 = some cv' ∧
      cv'.width = (zeroCanvas 2 2).width ∧ cv'.height = (zeroCanvas 2 2).height ∧
      (∀ r c, cv'.pix r c ≠ (zeroCanvas 2 2).pix r c →
        1 ≤ r ∧ r < (zeroCanvas 2 2).height ∧ 1 ≤ c ∧ c < (zeroCanvas 2 2).width) ∧
      (∀ r c, r < min (Tile.mk 3 3 fun _ _ => (9, 9, 9)).h ((zeroCanvas 2 2).height - 1) →
        c < min (Tile.mk 3 3 fun _ _ => (9, 9, 9)).w ((zeroCanvas 2 2).width - 1) →
        cv'.pix (1 + r) (1 + c) = (Tile.mk 3 3 fun _ _ => (9, 9, 9)).pix r c)) := by
  refine ⟨by decide, by decide, ?_⟩
  exact assemble_copy_clips (zeroCanvas 2 2) (Tile.mk 3 3 fun _ _ => (9, 9, 9)) 1 1
    (by decide) (by decide)

/-- Folding the assembler over a cell list: it always succeeds, keeps the
canvas dimensions, and leaves untouched every pixel avoided by all the
copied cells' write boxes. -/
theorem assembleCells_spec (cache : ℕ × ℕ → Option (Option Tile)) (ts : ℕ) :
    ∀ (cells : List (ℕ × ℕ)) (cv : Canvas),
      ∃ cv', assembleCells cache ts cells cv = some cv' ∧
        cv'.width = cv.width ∧ cv'.height = cv.height ∧
        ∀ r0 c0,
          (∀ cell ∈ cells, ∀ t : Tile, cache cell = some (some t) →
            ¬(cell.1 * ts ≤ r0 ∧ r0 < cell.1 * ts + t.h ∧
              cell.2 * ts ≤ c0 ∧ c0 < cell.2 * ts + t.w)) →
          cv'.pix r0 c0 = cv.pix r0 c0 := by
  intro cells
  induction cells with
  | nil =>
    intro cv
    exact ⟨cv, rfl, rfl, rfl, fun r0 c0 _ => rfl⟩
  | cons cell cells ih =>
    intro cv
    cases hc : cache cell with
    | none =>
      obtain ⟨cv', h1, h2, h3, h4⟩ := ih cv
      refine ⟨cv', by rw [assembleCells, hc]; exact h1, h2, h3, ?_⟩
      intro r0 c0 hav
      exact h4 r0 c0 fun q hq => hav q (List.mem_cons_of_mem _ hq)
    | some ot =>
      cases ot with
      | none =>
        obtain ⟨cv', h1, h2, h3, h4⟩ := ih cv
        refine ⟨cv', by rw [assembleCells, hc]; exact h1, h2, h3, ?_⟩
        intro r0 c0 hav
        exact h4 r0 c0 fun q hq => hav q (List.mem_cons_of_mem _ hq)
      | some t =>
        obtain ⟨cv1, g1, g2, g3, g4⟩ := assemble_copy_spec cv t (cell.2 * ts) (cell.1 * ts)
        obtain ⟨cv', h1, h2, h3, h4⟩ := ih cv1
        refine ⟨cv', ?_, by rw [h2, g2], by rw [h3, g3], ?_⟩
        · rw [assembleCells, hc]
          show (match assemble_copy cv t (cell.2 * ts) (cell.1 * ts) with
                | none => none
                | some cv2 => assembleCells cache ts cells cv2) = some cv'
          rw [g1]
          exact h1
        intro r0 c0 hav
        rw [h4 r0 c0 (fun q hq => hav q (List.mem_cons_of_mem _ hq)), g4 r0 c0]
        have havc := hav cell (List.mem_cons_self _ _) t hc
        have hno : ¬(cell.1 * ts ≤ r0 ∧ cell.2 * ts ≤ c0 ∧
            r0 - cell.1 * ts < min t.h (cv.height - cell.1 * ts) ∧
            c0 - cell.2 * ts < min t.w (cv.width - cell.2 * ts)) := by
          rintro ⟨p1, p2, p3, p4⟩
          have q3 : r0 - cell.1 * ts < t.h := lt_of_lt_of_le p3 (min_le_left _ _)
          have q4 : c0 - cell.2 * ts < t.w := lt_of_lt_of_le p4 (min_le_left _ _)
          exact havc ⟨p1, by omega, p2, by omega⟩
        rw [if_neg hno]

/-- C7: when every cached tile fits in a `tileSize` square, the assembler
never raises, always produces a canvas of exactly the requested
dimensions, and leaves the whole region of every missing or undecodable
cell at the zero fill value. -/
theorem assemble_tiles_missing (cache : ℕ × ℕ → Option (Option Tile)) (W H ts : ℕ)
    (hts : 0 < ts)
    (htiles : ∀ cell (t : Tile), cache cell = some (some t) → t.h ≤ ts ∧ t.w ≤ ts) :
    ∃ cv, assemble_tiles cache W H ts = some cv ∧
      cv.width = W ∧ cv.height = H ∧
      ∀ j i, (cache (j, i) = none ∨ cache (j, i) = some none) →
        ∀ r c, j * ts ≤ r → r < (j + 1) * ts → i * ts ≤ c → c < (i + 1) * ts →
          cv.pix r c = (0, 0, 0) := by
  obtain ⟨cv, h1, h2, h3, h4⟩ :=
    assembleCells_spec cache ts (cellList W H ts) (zeroCanvas W H)
  refine ⟨cv, by rw [assemble_tiles]; exact h1, h2, h3, ?_⟩
  intro j i hmiss r c hr1 hr2 hc1 hc2
  have hav : ∀ cell ∈ cellList W H ts, ∀ t : Tile, cache cell = some (some t) →
      ¬(cell.1 * ts ≤ r ∧ r < cell.1 * ts + t.h ∧
        cell.2 * ts ≤ c ∧ c < cell.2 * ts + t.w) := by
    intro cell hcell t ht
    rintro ⟨p1, p2, p3, p4⟩
    obtain ⟨hth, htw⟩ := htiles cell t ht
    have hj : cell.1 = j := by
      rcases Nat.lt_trichotomy cell.1 j with hlt | hjeq | hgt
      · exfalso
        have e1 : cell.1 * ts + t.h ≤ (cell.1 + 1) * ts := by
          rw [Nat.succ_mul]
          omega
        have e2 : (cell.1 + 1) * ts ≤ j * ts := Nat.mul_le_mul_right ts (by omega)
        omega
      · exact hjeq
      · exfalso
        have e2 : (j + 1) * ts ≤ cell.1 * ts := Nat.mul_le_mul_right ts (by omega)
        omega
    have hi : cell.2 = i := by
      rcases Nat.lt_trichotomy cell.2 i with hlt | hieq | hgt
      · exfalso
        have e1 : cell.2 * ts + t.w ≤ (cell.2 + 1) * ts := by
          rw [Nat.succ_mul]
          omega
        have e2 : (cell.2 + 1) * ts ≤ i * ts := Nat.mul_le_mul_right ts (by omega)
        omega
      · exact hieq
      · exfalso
        have e2 : (i + 1) * ts ≤ cell.2 * ts := Nat.mul_le_mul_right ts (by omega)
        omega
    have hcelleq : cell = (j, i) := Prod.ext hj hi
    rw [hcelleq] at ht
    rcases hmiss with hm | hm
    · rw [hm] at ht
      cases ht
    · rw [hm] at ht
      cases ht
  rw [h4 r c hav]
  rfl

/-- Witness for C7: a 1×1 grid with every tile file missing. -/
theorem assemble_tiles_missing_witness :
    (0 : ℕ) < 1 ∧
    (∃ cv, assemble_tiles (fun _ => none) 1 1 1 = some cv ∧
      cv.width = 1 ∧ cv.height = 1 ∧
      ∀ j i, ((fun _ : ℕ × ℕ => (none : Option (Option Tile))) (j, i) = none ∨
          (fun _ : ℕ × ℕ => (none : Option (Option Tile))) (j, i) = some none) →
        ∀ r c, j * 1 ≤ r → r < (j + 1) * 1 → i * 1 ≤ c → c < (i + 1) * 1 →
          cv.pix r c = (0, 0, 0)) := by
  refine ⟨by decide, ?_⟩
  exact assemble_tiles_missing (fun _ => none) 1 1 1 (by decide)
    (fun cell t ht => nomatch ht)

end Gigapan
